import Mathlib

/-
Verification development for the Plates_Worker repository (src/worker.js).

The worker polls a `plate_jobs` table, claims one queued job via an atomic
conditional update, downloads a PDF, extracts per-ink separation rasters with
Ghostscript, classifies each raster file, colorizes it to a tinted RGBA
preview, uploads results to storage at deterministic paths, and writes the
final state to the `proof_pages` record and the job record.

The definitions below are a shallow embedding of the pure logic of
src/worker.js: string sanitation and plate classification, the MD5-based
deterministic spot colors, the per-pixel colorization, the storage paths and
upsert semantics, the job-claim protocol, and the record-update discipline.
External services (database, storage, Ghostscript, sharp) are modelled at
their interface boundary: tables are lists of rows, the storage bucket is an
association list, raster buffers are lists of RGBA byte pixels, and the
fallible pipeline body is an `Except` outcome.
-/

namespace PlatesWorker

/-! ## String helpers: safeName, lowercasing, basename, extension stripping -/

/-- Characters kept unchanged by `safeName`: the JS regex `[^\w.-]+` replaces
runs of every other character, where `\w` is ASCII `[A-Za-z0-9_]`. -/
def wordDotDash (c : Char) : Bool :=
  c.isAlphanum || c == '_' || c == '.' || c == '-'

/-- `String.replace(/[^\w.-]+/g, "_")` from `safeName` in src/worker.js:
each maximal run of non-kept characters becomes a single underscore.
The flag records whether the previous character was part of such a run. -/
def collapseRuns : List Char → Bool → List Char
  | [], _ => []
  | c :: rest, prevBad =>
    if wordDotDash c then c :: collapseRuns rest false
    else if prevBad then collapseRuns rest true
    else '_' :: collapseRuns rest true

/-- The `_+$` half of the JS regex `^_+|_+$`: drop trailing underscores. -/
def dropTrailingUnderscores (s : List Char) : List Char :=
  (s.reverse.dropWhile (· == '_')).reverse

/-- `safeName` from src/worker.js: collapse runs of characters outside
`[\w.-]` to a single `_`, strip leading and trailing underscores, and
truncate to 80 characters. -/
def safeName (s : List Char) : List Char :=
  (dropTrailingUnderscores ((collapseRuns s false).dropWhile (· == '_'))).take 80

/-- `String.toLowerCase()` on the ASCII alphabet (the classification words
are ASCII). -/
def toLowerList (s : List Char) : List Char :=
  s.map Char.toLower

/-- `path.basename`: the part of the path after the final slash. -/
def basenameL (s : List Char) : List Char :=
  (s.reverse.takeWhile (fun c => !(c == '/'))).reverse

/-- `path.basename(p, path.extname(p))`: drop the final dot-extension of the
base name, unless there is no dot or the only dot is the leading character. -/
def stripExtL (s : List Char) : List Char :=
  let alen := (s.reverse.takeWhile (fun c => !(c == '.'))).length
  if alen == s.length then s
  else if alen + 1 == s.length then s
  else s.take (s.length - (alen + 1))

/-! ## Boolean substring test (JS `String.prototype.includes`) -/

/-- Boolean prefix test on character lists. -/
def isPrefixB : List Char → List Char → Bool
  | [], _ => true
  | _ :: _, [] => false
  | a :: as, b :: bs => a == b && isPrefixB as bs

/-- Boolean substring test, `pat` occurring contiguously inside `s`;
this is JS `s.includes(pat)`. -/
def containsSub (pat : List Char) : List Char → Bool
  | [] => isPrefixB pat []
  | c :: rest => isPrefixB pat (c :: rest) || containsSub pat rest

/-! ## Plate classification (guessPlateLabelFromFilename, plateKeyFromLabel) -/

def cyanWord : List Char := "cyan".toList
def magentaWord : List Char := "magenta".toList
def yellowWord : List Char := "yellow".toList
def blackWord : List Char := "black".toList

/-- `guessPlateLabelFromFilename` from src/worker.js: lowercase the base
name, match the four process-ink words as substrings, otherwise fall back to
the sanitized stem of the file name. -/
def guessPlateLabelFromFilename (p : List Char) : List Char :=
  let base := toLowerList (basenameL p)
  if containsSub cyanWord base then "Cyan".toList
  else if containsSub magentaWord base then "Magenta".toList
  else if containsSub yellowWord base then "Yellow".toList
  else if containsSub blackWord base then "Black".toList
  else safeName (stripExtL (basenameL p))

/-- `plateKeyFromLabel` from src/worker.js. -/
def plateKeyFromLabel (label : List Char) : String :=
  let p := toLowerList label
  if p == "c".toList || containsSub cyanWord p then "C"
  else if p == "m".toList || containsSub magentaWord p then "M"
  else if p == "y".toList || containsSub yellowWord p then "Y"
  else if p == "k".toList || containsSub blackWord p then "K"
  else "SPOT"

/-! ## MD5 (node:crypto `createHash("md5")`), RFC 1321, over byte lists -/

/-- Truncation to a 32-bit word. -/
def w32 (x : ℕ) : ℕ := x % 4294967296

/-- 32-bit bitwise complement. -/
def not32 (x : ℕ) : ℕ := 4294967295 ^^^ w32 x

/-- 32-bit left rotation. -/
def rotl32 (x n : ℕ) : ℕ := w32 (x <<< n) ||| (w32 x >>> (32 - n))

def mdF (b c d : ℕ) : ℕ := (b &&& c) ||| (not32 b &&& d)
def mdG (b c d : ℕ) : ℕ := (b &&& d) ||| (c &&& not32 d)
def mdH (b c d : ℕ) : ℕ := b ^^^ c ^^^ d
def mdI (b c d : ℕ) : ℕ := c ^^^ (b ||| not32 d)

/-- The 64 MD5 sine-derived round constants. -/
def mdK : List ℕ :=
  [0xd76aa478, 0xe8c7b756, 0x242070db, 0xc1bdceee,
   0xf57c0faf, 0x4787c62a, 0xa8304613, 0xfd469501,
   0x698098d8, 0x8b44f7af, 0xffff5bb1, 0x895cd7be,
   0x6b901122, 0xfd987193, 0xa679438e, 0x49b40821,
   0xf61e2562, 0xc040b340, 0x265e5a51, 0xe9b6c7aa,
   0xd62f105d, 0x02441453, 0xd8a1e681, 0xe7d3fbc8,
   0x21e1cde6, 0xc33707d6, 0xf4d50d87, 0x455a14ed,
   0xa9e3e905, 0xfcefa3f8, 0x676f02d9, 0x8d2a4c8a,
   0xfffa3942, 0x8771f681, 0x6d9d6122, 0xfde5380c,
   0xa4beea44, 0x4bdecfa9, 0xf6bb4b60, 0xbebfbc70,
   0x289b7ec6, 0xeaa127fa, 0xd4ef3085, 0x04881d05,
   0xd9d4d039, 0xe6db99e5, 0x1fa27cf8, 0xc4ac5665,
   0xf4292244, 0x432aff97, 0xab9423a7, 0xfc93a039,
   0x655b59c3, 0x8f0ccc92, 0xffeff47d, 0x85845dd1,
   0x6fa87e4f, 0xfe2ce6e0, 0xa3014314, 0x4e0811a1,
   0xf7537e82, 0xbd3af235, 0x2ad7d2bb, 0xeb86d391]

/-- Per-round left-rotation amounts. -/
def mdS : List ℕ :=
  [7, 12, 17, 22, 7, 12, 17, 22, 7, 12, 17, 22, 7, 12, 17, 22,
   5, 9, 14, 20, 5, 9, 14, 20, 5, 9, 14, 20, 5, 9, 14, 20,
   4, 11, 16, 23, 4, 11, 16, 23, 4, 11, 16, 23, 4, 11, 16, 23,
   6, 10, 15, 21, 6, 10, 15, 21, 6, 10, 15, 21, 6, 10, 15, 21]

/-- Message-word index used in round `i`. -/
def mdIdx (i : ℕ) : ℕ :=
  if i < 16 then i
  else if i < 32 then (5 * i + 1) % 16
  else if i < 48 then (3 * i + 5) % 16
  else (7 * i) % 16

/-- One MD5 round on the state `(a, b, c, d)` with block words `M`. -/
def mdRound (M : List ℕ) (st : ℕ × ℕ × ℕ × ℕ) (i : ℕ) : ℕ × ℕ × ℕ × ℕ :=
  let a := st.1
  let b := st.2.1
  let c := st.2.2.1
  let d := st.2.2.2
  let f :=
    if i < 16 then mdF b c d
    else if i < 32 then mdG b c d
    else if i < 48 then mdH b c d
    else mdI b c d
  let tmp := w32 (a + f + mdK.getD i 0 + M.getD (mdIdx i) 0)
  (d, w32 (b + rotl32 tmp (mdS.getD i 0)), b, c)

/-- Process one 512-bit block. -/
def mdBlock (st : ℕ × ℕ × ℕ × ℕ) (M : List ℕ) : ℕ × ℕ × ℕ × ℕ :=
  let r := (List.range 64).foldl (mdRound M) st
  (w32 (st.1 + r.1), w32 (st.2.1 + r.2.1),
   w32 (st.2.2.1 + r.2.2.1), w32 (st.2.2.2 + r.2.2.2))

/-- Group bytes into little-endian 32-bit words. -/
def toWordsLE : List ℕ → List ℕ
  | b0 :: b1 :: b2 :: b3 :: rest =>
    (b0 + 256 * b1 + 65536 * b2 + 16777216 * b3) :: toWordsLE rest
  | _ => []

/-- A 32-bit word as four little-endian bytes. -/
def wordToBytesLE (n : ℕ) : List ℕ :=
  [n % 256, n >>> 8 % 256, n >>> 16 % 256, n >>> 24 % 256]

/-- MD5 padding: a 0x80 byte, zeros to 56 mod 64, then the bit length as a
little-endian 64-bit integer. -/
def md5Pad (msg : List ℕ) : List ℕ :=
  let zeros := (120 - (msg.length + 1) % 64) % 64
  msg ++ [128] ++ List.replicate zeros 0 ++
    (List.range 8).map (fun i => (8 * msg.length) >>> (8 * i) % 256)

/-- MD5 digest of a byte list, as 16 bytes. -/
def md5Digest (msg : List ℕ) : List ℕ :=
  let p := md5Pad msg
  let final := (List.range (p.length / 64)).foldl
    (fun st i => mdBlock st (toWordsLE ((p.drop (64 * i)).take 64)))
    (0x67452301, 0xefcdab89, 0x98badcfe, 0x10325476)
  wordToBytesLE final.1 ++ wordToBytesLE final.2.1 ++
    wordToBytesLE final.2.2.1 ++ wordToBytesLE final.2.2.2

/-! ## Spot colors and per-pixel colorization -/

/-- An RGB triple. -/
structure RGB where
  r : ℕ
  g : ℕ
  b : ℕ
  deriving DecidableEq, Repr

/-- An RGBA pixel (one byte per channel). -/
structure RGBA where
  r : ℕ
  g : ℕ
  b : ℕ
  a : ℕ
  deriving DecidableEq, Repr

/-- `spotColorFromName` from src/worker.js: the first three MD5 digest bytes
of the label, each mapped into the band `[120, 239]` by `120 + byte % 120`.
The label is taken as its UTF-8 byte list (what `hash.update(name)` hashes). -/
def spotColorFromName (name : List ℕ) : RGB :=
  let h := md5Digest name
  ⟨120 + h.getD 0 0 % 120, 120 + h.getD 1 0 % 120, 120 + h.getD 2 0 % 120⟩

/-- JS `Math.round`: round half toward positive infinity. -/
def jsRound (x : ℚ) : ℤ := ⌊x + 1 / 2⌋

/-- `1 - gray / 255`, the spot-branch ink strength in `colorizeGrayscale`. -/
def spotStrength (gray : ℕ) : ℚ := 1 - (gray : ℚ) / 255

/-- The exact value `255 - (255 - sc) * strength` computed in the spot branch
for one channel with base component `sc`. -/
def spotChanVal (sc gray : ℕ) : ℚ :=
  255 - (255 - (sc : ℚ)) * spotStrength gray

/-- The spot-branch channel byte: `Math.round(255 - (255 - sc) * strength)`. -/
def spotChan (sc gray : ℕ) : ℕ := (jsRound (spotChanVal sc gray)).toNat

/-- A buffer write `out[i] = v`: Node truncates the stored value to a byte. -/
def mkPx (r g b : ℕ) : RGBA := ⟨r % 256, g % 256, b % 256, 255 % 256⟩

/-- The per-pixel body of `colorizeGrayscale` in src/worker.js: `gray` is the
red channel of the input pixel; the five branches on the plate key. -/
def colorizePixel (key : String) (spotRGB : RGB) (gray : ℕ) : RGBA :=
  if key = "C" then mkPx gray 255 255
  else if key = "M" then mkPx 255 gray 255
  else if key = "Y" then mkPx 255 255 gray
  else if key = "K" then mkPx gray gray gray
  else mkPx (spotChan spotRGB.r gray) (spotChan spotRGB.g gray)
    (spotChan spotRGB.b gray)

/-- `colorizeGrayscale` over a decoded RGBA raster: each output pixel is the
colorization of the input pixel's red (grayscale) sample; the spot tint is
derived once from the label. -/
def colorizeGrayscale (data : List RGBA) (key : String)
    (labelForSpot : List ℕ) : List RGBA :=
  data.map (fun px => colorizePixel key (spotColorFromName labelForSpot) px.r)

/-! ## Plate compositing -/

/-- Modelled from the spec: the repository has no PlateCompositor in src
(spec section 4.6 describes it; no composite function exists in
src/worker.js). Per-channel multiplicative blending over the 255 maximum:
`result = base * layer / maxValue`. -/
def blendPixel (base layer : RGBA) : RGBA :=
  ⟨base.r * layer.r / 255, base.g * layer.g / 255,
   base.b * layer.b / 255, base.a * layer.a / 255⟩

/-- A fully white, fully opaque canvas of `n` pixels. -/
def whiteCanvas (n : ℕ) : List RGBA :=
  List.replicate n ⟨255, 255, 255, 255⟩

/-- Modelled from the spec: `composite(coloredPlates)` of spec section 4.6.
Returns none on an empty plate list; otherwise layers each colorized plate
over a fully white, fully opaque canvas at the plate dimensions, in
plate-production order, with per-channel multiplicative blending. -/
def composite (plates : List (List RGBA)) : Option (List RGBA) :=
  match plates with
  | [] => none
  | p :: _ =>
    some (plates.foldl (fun acc pl => List.zipWith blendPixel acc pl)
      (whiteCanvas p.length))

/-! ## Storage paths and upsert semantics -/

/-- The storage folder `separations/<proofPageId>` used by `processJob`. -/
def plateFolder (proofPageId : List Char) : List Char :=
  "separations/".toList ++ proofPageId

/-- `${plateFolder}/${safeName(plateLabel)}_gray.png`. -/
def grayPlatePath (proofPageId label : List Char) : List Char :=
  plateFolder proofPageId ++ "/".toList ++ safeName label ++ "_gray.png".toList

/-- `${plateFolder}/${safeName(plateLabel)}.png`. -/
def tintedPlatePath (proofPageId label : List Char) : List Char :=
  plateFolder proofPageId ++ "/".toList ++ safeName label ++ ".png".toList

/-- The storage bucket as an association list from paths to blob contents. -/
def Store := List (List Char × List ℕ)

/-- `supabase.storage.upload(path, buffer, { upsert: true })`: replace the
entry at an existing path, otherwise append a new entry. -/
def upsertStore : Store → List Char → List ℕ → Store
  | [], p, c => [(p, c)]
  | (q, d) :: rest, p, c =>
    if q = p then (p, c) :: rest else (q, d) :: upsertStore rest p c

/-! ## The job table and the claim protocol -/

inductive JobStatus
  | queued
  | processing
  | done
  | failed
  deriving DecidableEq, Repr

/-- The job payload fields the worker reads. -/
structure JobPayload where
  proofPageId : Option ℕ
  pdfStoragePath : Option String
  pageIndex : ℕ
  dpi : ℕ
  deriving DecidableEq, Repr

/-- A row of the `plate_jobs` table. -/
structure JobRow where
  id : ℕ
  payload : JobPayload
  status : JobStatus
  lockedAt : Option ℕ
  createdAt : ℕ
  result : Option ℕ
  error : Option String
  deriving DecidableEq, Repr

/-- The filter of the claim SELECT: `status = queued AND locked_at IS NULL`. -/
def claimable (j : JobRow) : Bool :=
  j.status == JobStatus.queued && j.lockedAt.isNone

/-- The guard of the claim UPDATE in `tryClaimOneJob`:
`id = jobId AND status = queued AND locked_at IS NULL`. -/
def claimGuard (jobId : ℕ) (j : JobRow) : Bool :=
  j.id == jobId && j.status == JobStatus.queued && j.lockedAt.isNone

/-- The SET clause of the claim UPDATE:
`status = processing, locked_at = now`. -/
def lockRow (now : ℕ) (j : JobRow) : JobRow :=
  { j with status := JobStatus.processing, lockedAt := some now }

/-- The atomic conditional claim UPDATE applied to the whole table. -/
def claimUpdate (t : List JobRow) (jobId now : ℕ) : List JobRow :=
  t.map (fun j => if claimGuard jobId j then lockRow now j else j)

/-- The number of rows the claim UPDATE matches (what `.maybeSingle()`
reports back: zero matched rows yields a null `locked`). -/
def claimMatched (t : List JobRow) (jobId : ℕ) : ℕ :=
  t.countP (fun j => claimGuard jobId j)

/-- The SELECT of `tryClaimOneJob`: the claimable rows ordered by creation
time ascending, limit 1 — a claimable row of minimal `createdAt`. -/
def selectOldest (t : List JobRow) : Option JobRow :=
  (t.filter claimable).foldl
    (fun acc j =>
      match acc with
      | none => some j
      | some k => if j.createdAt < k.createdAt then some j else some k)
    none

/-- One polling iteration of `tryClaimOneJob` up to the claim: SELECT against
the snapshot `tSel`, then the guarded UPDATE against the current table
`tUpd` (the two differ when another worker raced in between). Returns the
updated table and the id of the job this worker now owns, if any; a none
means the worker abandoned silently and processed nothing. -/
def tryClaimStep (tSel tUpd : List JobRow) (now : ℕ) :
    List JobRow × Option ℕ :=
  match selectOldest tSel with
  | none => (tUpd, none)
  | some j =>
    let t2 := claimUpdate tUpd j.id now
    if claimMatched tUpd j.id == 0 then (t2, none) else (t2, some j.id)

/-- A sequence of claim attempts against the same job id (the serialized
interleaving of N racing workers): each attempt performs the guarded UPDATE
and counts as a success when it matched at least one row. Returns the final
table and the number of successful attempts. -/
def runAttempts (t : List JobRow) (jobId : ℕ) : List ℕ → List JobRow × ℕ
  | [] => (t, 0)
  | now :: rest =>
    let matched := claimMatched t jobId
    let r := runAttempts (claimUpdate t jobId now) jobId rest
    (r.1, (if matched == 0 then 0 else 1) + r.2)

/-! ## The proof_pages table and the update-object discipline -/

/-- One `{ name, url }` entry of the `spot_plates` JSONB column. -/
structure SpotEntry where
  name : String
  url : String
  deriving DecidableEq, Repr

/-- A row of the `proof_pages` table (the columns the worker writes). -/
structure PageRow where
  id : ℕ
  cUrl : Option String
  mUrl : Option String
  yUrl : Option String
  kUrl : Option String
  spotPlates : List SpotEntry
  sepStatus : Option String
  sepError : Option String
  deriving DecidableEq, Repr

/-- A partial update object for `proof_pages`: an outer `none` means the key
is absent from the object (the column is left untouched); `some v` means the
key is present with value `v`, where an inner `none` is an explicit JSON
null. The `spot_plates` value is a JSON array and is never null. -/
structure PagesUpdate where
  cUrl : Option (Option String)
  mUrl : Option (Option String)
  yUrl : Option (Option String)
  kUrl : Option (Option String)
  spotPlates : Option (List SpotEntry)
  sepStatus : Option (Option String)
  sepError : Option (Option String)
  deriving DecidableEq, Repr

/-- `supabase.from("proof_pages").update(u)` on one row: every key present
in the object overwrites its column (null included); absent keys leave the
column unchanged. -/
def applyUpdate (u : PagesUpdate) (p : PageRow) : PageRow :=
  { p with
    cUrl := u.cUrl.getD p.cUrl
    mUrl := u.mUrl.getD p.mUrl
    yUrl := u.yUrl.getD p.yUrl
    kUrl := u.kUrl.getD p.kUrl
    spotPlates := u.spotPlates.getD p.spotPlates
    sepStatus := u.sepStatus.getD p.sepStatus
    sepError := u.sepError.getD p.sepError }

/-- `.update(u).eq("id", pid)` over the whole table. -/
def updatePagesWhere (pages : List PageRow) (pid : ℕ) (u : PagesUpdate) :
    List PageRow :=
  pages.map (fun p => if p.id == pid then applyUpdate u p else p)

/-- The update object of `setProofPageStatus` in src/worker.js: both keys
are always present, and `separations_error` may carry an explicit null. -/
def statusUpdateObj (status : String) (err : Option String) : PagesUpdate :=
  ⟨none, none, none, none, none, some (some status), some err⟩

/-- `setProofPageStatus(proofPageId, status, errorMsg)` from src/worker.js. -/
def setProofPageStatus (pages : List PageRow) (pid : ℕ) (status : String)
    (err : Option String) : List PageRow :=
  updatePagesWhere pages pid (statusUpdateObj status err)

/-- The final update object built in `processJob`: the four process URLs as
gathered (null when that plate was not produced), the spot list, status
"done", and an explicit null `separations_error`. -/
def mkDoneUpdate (c m y k : Option String) (spots : List SpotEntry) :
    PagesUpdate :=
  ⟨some c, some m, some y, some k, some spots, some (some ("done")), some none⟩

/-- The `Object.keys(updateObj).forEach(... delete ...)` pass of
`processJob`: every key whose present value is the JSON null is removed from
the update object. The `spot_plates` value is an array, never null, so that
key survives unconditionally. -/
def stripNulls (u : PagesUpdate) : PagesUpdate :=
  { cUrl := if u.cUrl == some none then none else u.cUrl
    mUrl := if u.mUrl == some none then none else u.mUrl
    yUrl := if u.yUrl == some none then none else u.yUrl
    kUrl := if u.kUrl == some none then none else u.kUrl
    spotPlates := u.spotPlates
    sepStatus := if u.sepStatus == some none then none else u.sepStatus
    sepError := if u.sepError == some none then none else u.sepError }

/-- The `proof_pages` side effects of a successful `processJob` run: the
initial transition to status "processing" with a null error (written through
`setProofPageStatus`, which does not strip nulls), then the final
null-stripped done update. -/
def processJobPagesEffect (pages : List PageRow) (pid : ℕ)
    (c m y k : Option String) (spots : List SpotEntry) : List PageRow :=
  updatePagesWhere (setProofPageStatus pages pid ("processing") none) pid
    (stripNulls (mkDoneUpdate c m y k spots))

/-! ## The per-job wrapper of tryClaimOneJob (terminal states) -/

/-- `update({ status: "done", result, error: null }).eq("id", jobId)`. -/
def finishJob (t : List JobRow) (jobId : ℕ) (res : ℕ) : List JobRow :=
  t.map (fun j =>
    if j.id == jobId then
      { j with status := JobStatus.done, result := some res, error := none }
    else j)

/-- `update({ status: "failed", error: msg }).eq("id", jobId)`. -/
def failJob (t : List JobRow) (jobId : ℕ) (msg : String) : List JobRow :=
  t.map (fun j =>
    if j.id == jobId then
      { j with status := JobStatus.failed, error := some msg }
    else j)

/-- The try/catch wrapper around `processJob` in `tryClaimOneJob`: the
pipeline body is abstracted as its outcome. On a normal return the job row
is set to done with the result and a null error; on a thrown error the
message is caught at the job boundary, the target page (when the payload
names one) is marked failed with the same message, and the job row is set to
failed. The wrapper itself always returns, so the worker loop keeps polling. -/
def runClaimedJob (jobs : List JobRow) (pages : List PageRow) (job : JobRow)
    (outcome : Except String ℕ) : List JobRow × List PageRow :=
  match outcome with
  | Except.ok r => (finishJob jobs job.id r, pages)
  | Except.error msg =>
    let pages2 :=
      match job.payload.proofPageId with
      | some pid => setProofPageStatus pages pid ("failed") (some msg)
      | none => pages
    (failJob jobs job.id msg, pages2)

/-! ## Helper lemmas: the claim protocol -/

lemma claimGuard_lockRow (jobId now : ℕ) (j : JobRow) :
    claimGuard jobId (lockRow now j) = false := by
  simp [claimGuard, lockRow]

lemma claimGuard_of_locked (jobId : ℕ) (j : JobRow) (h : j.lockedAt.isSome) :
    claimGuard jobId j = false := by
  obtain ⟨v, hv⟩ := Option.isSome_iff_exists.mp h
  simp [claimGuard, hv]

lemma claimMatched_claimUpdate (t : List JobRow) (jobId now : ℕ) :
    claimMatched (claimUpdate t jobId now) jobId = 0 := by
  unfold claimMatched claimUpdate
  rw [List.countP_eq_zero]
  intro j hj
  simp only [List.mem_map] at hj
  obtain ⟨k, _, rfl⟩ := hj
  by_cases h : claimGuard jobId k
  · simp [h, claimGuard_lockRow]
  · simp [h]

lemma claimUpdate_of_matched_zero (t : List JobRow) (jobId now : ℕ)
    (h : claimMatched t jobId = 0) : claimUpdate t jobId now = t := by
  unfold claimMatched at h
  rw [List.countP_eq_zero] at h
  unfold claimUpdate
  induction t with
  | nil => rfl
  | cons a l ih =>
    have ha : ¬ claimGuard jobId a := by
      simpa using h a (by simp)
    have hl : ∀ j ∈ l, ¬ claimGuard jobId j = true := by
      intro j hj
      exact h j (by simp [hj])
    simp [ha, ih hl]

lemma runAttempts_of_matched_zero (t : List JobRow) (jobId : ℕ)
    (h : claimMatched t jobId = 0) :
    ∀ times : List ℕ, runAttempts t jobId times = (t, 0) := by
  intro times
  induction times with
  | nil => rfl
  | cons now rest ih =>
    unfold runAttempts
    rw [claimUpdate_of_matched_zero t jobId now h]
    simp [h, ih]

/-- C1: a job moves from queued to processing only through the guarded
conditional update (id matches, status still queued, lock still null): a row
whose lock is set never satisfies the guard; when the guarded update matches
zero rows the worker abandons silently, leaving the table unchanged and
processing nothing; a table on which the claim update has fired has no row
left matching the guard for that job, so the job cannot be re-claimed; and
over any serialized sequence of racing claim attempts against a claimable
job, exactly one attempt succeeds. -/
theorem claim_protocol_exclusive :
    (∀ (jobId : ℕ) (j : JobRow), j.lockedAt.isSome →
      claimGuard jobId j = false) ∧
    (∀ (tSel tUpd : List JobRow) (now : ℕ) (j : JobRow),
      selectOldest tSel = some j → claimMatched tUpd j.id = 0 →
      tryClaimStep tSel tUpd now = (tUpd, none)) ∧
    (∀ (t : List JobRow) (jobId now : ℕ),
      claimMatched (claimUpdate t jobId now) jobId = 0) ∧
    (∀ (t : List JobRow) (jobId : ℕ) (times : List ℕ),
      claimMatched t jobId ≠ 0 → times ≠ [] →
      (runAttempts t jobId times).2 = 1) := by
  refine ⟨fun jobId j h => claimGuard_of_locked jobId j h, ?_, ?_, ?_⟩
  · intro tSel tUpd now j hsel hmatch
    unfold tryClaimStep
    rw [hsel]
    simp [hmatch, claimUpdate_of_matched_zero tUpd j.id now hmatch]
  · exact fun t jobId now => claimMatched_claimUpdate t jobId now
  · intro t jobId times hm htimes
    cases times with
    | nil => exact absurd rfl htimes
    | cons now rest =>
      unfold runAttempts
      rw [runAttempts_of_matched_zero (claimUpdate t jobId now) jobId
        (claimMatched_claimUpdate t jobId now) rest]
      simp [hm]

/-- A sample queued, unlocked job row used by the witnesses. -/
def jw : JobRow :=
  { id := 1
    payload :=
      { proofPageId := some 11, pdfStoragePath := some ("docs/a.pdf")
        pageIndex := 0, dpi := 150 }
    status := JobStatus.queued
    lockedAt := none
    createdAt := 3
    result := none
    error := none }

theorem claim_protocol_exclusive_witness :
    claimGuard 1 (lockRow 5 jw) = false ∧
    tryClaimStep [jw] [] 9 = ([], none) ∧
    claimMatched (claimUpdate [jw] 1 5) 1 = 0 ∧
    (runAttempts [jw] 1 [5, 6, 7]).2 = 1 :=
  ⟨claim_protocol_exclusive.1 1 (lockRow 5 jw) (by decide),
   claim_protocol_exclusive.2.1 [jw] [] 9 jw (by decide) (by decide),
   claim_protocol_exclusive.2.2.1 [jw] 1 5,
   claim_protocol_exclusive.2.2.2 [jw] 1 [5, 6, 7] (by decide) (by decide)⟩

/-! ## Helper lemmas: terminal job states -/

lemma finishJob_mem (t : List JobRow) (jobId : ℕ) (res : ℕ) (j : JobRow)
    (hj : j ∈ finishJob t jobId res) (hid : j.id = jobId) :
    j.status = JobStatus.done ∧ j.result = some res ∧ j.error = none := by
  unfold finishJob at hj
  simp only [List.mem_map] at hj
  obtain ⟨k, _, rfl⟩ := hj
  by_cases h : k.id == jobId
  · simp [h]
  · rw [if_neg h] at hid ⊢
    exact absurd (by simp [hid]) h

lemma failJob_mem (t : List JobRow) (jobId : ℕ) (msg : String) (j : JobRow)
    (hj : j ∈ failJob t jobId msg) (hid : j.id = jobId) :
    j.status = JobStatus.failed ∧ j.error = some msg := by
  unfold failJob at hj
  simp only [List.mem_map] at hj
  obtain ⟨k, _, rfl⟩ := hj
  by_cases h : k.id == jobId
  · simp [h]
  · rw [if_neg h] at hid ⊢
    exact absurd (by simp [hid]) h

lemma setProofPageStatus_mem (pages : List PageRow) (pid : ℕ) (st : String)
    (err : Option String) (p : PageRow)
    (hp : p ∈ setProofPageStatus pages pid st err) (hid : p.id = pid) :
    p.sepStatus = some st ∧ p.sepError = err := by
  unfold setProofPageStatus updatePagesWhere at hp
  simp only [List.mem_map] at hp
  obtain ⟨k, _, rfl⟩ := hp
  by_cases h : k.id == pid
  · simp [h, applyUpdate, statusUpdateObj]
  · rw [if_neg h] at hid ⊢
    exact absurd (by simp [hid]) h

/-- C2: the per-job try/catch wrapper drives every claimed job to exactly one
terminal status. When the pipeline body returns, the job row is set to done
with the result and a null error and the pages are untouched; when any step
throws, the message is caught at the job boundary, the job row is set to
failed with that message, and (when the payload names a target page) the
page row is also marked failed with the same message. Under either outcome
no row for the job is left in processing, and the wrapper returns normally,
so the worker loop keeps polling. -/
theorem job_terminal_totality :
    ∀ (jobs : List JobRow) (pages : List PageRow) (job : JobRow) (r : ℕ)
      (msg : String),
    (∀ j ∈ (runClaimedJob jobs pages job (Except.ok r)).1, j.id = job.id →
      j.status = JobStatus.done ∧ j.result = some r ∧ j.error = none) ∧
    ((runClaimedJob jobs pages job (Except.ok r)).2 = pages) ∧
    (∀ j ∈ (runClaimedJob jobs pages job (Except.error msg)).1,
      j.id = job.id → j.status = JobStatus.failed ∧ j.error = some msg) ∧
    (∀ pid, job.payload.proofPageId = some pid →
      ∀ p ∈ (runClaimedJob jobs pages job (Except.error msg)).2, p.id = pid →
      p.sepStatus = some ("failed") ∧ p.sepError = some msg) ∧
    (∀ outcome : Except String ℕ,
      ∀ j ∈ (runClaimedJob jobs pages job outcome).1, j.id = job.id →
      j.status ≠ JobStatus.processing) := by
  intro jobs pages job r msg
  refine ⟨?_, rfl, ?_, ?_, ?_⟩
  · intro j hj hid
    exact finishJob_mem jobs job.id r j hj hid
  · intro j hj hid
    unfold runClaimedJob at hj
    exact failJob_mem jobs job.id msg j hj hid
  · intro pid hpid p hp hid
    unfold runClaimedJob at hp
    rw [hpid] at hp
    exact setProofPageStatus_mem pages pid ("failed") (some msg) p hp hid
  · intro outcome j hj hid
    cases outcome with
    | ok v =>
      have := finishJob_mem jobs job.id v j hj hid
      simp [this.1]
    | error m =>
      have := failJob_mem jobs job.id m j hj hid
      simp [this.1]

/-- A sample page row used by the witnesses. -/
def pgw : PageRow :=
  { id := 11, cUrl := none, mUrl := none, yUrl := none, kUrl := none
    spotPlates := [], sepStatus := some ("queued"), sepError := none }

theorem job_terminal_totality_witness :
    (((runClaimedJob [jw] [pgw] jw (Except.ok 7)).1.getD 0 jw).status =
        JobStatus.done ∧
      ((runClaimedJob [jw] [pgw] jw (Except.ok 7)).1.getD 0 jw).result =
        some 7 ∧
      ((runClaimedJob [jw] [pgw] jw (Except.ok 7)).1.getD 0 jw).error =
        none) ∧
    (((runClaimedJob [jw] [pgw] jw
          (Except.error ("boom"))).1.getD 0 jw).status =
        JobStatus.failed ∧
      ((runClaimedJob [jw] [pgw] jw
          (Except.error ("boom"))).1.getD 0 jw).error = some ("boom")) ∧
    (((runClaimedJob [jw] [pgw] jw
          (Except.error ("boom"))).2.getD 0 pgw).sepStatus =
        some ("failed") ∧
      ((runClaimedJob [jw] [pgw] jw
          (Except.error ("boom"))).2.getD 0 pgw).sepError = some ("boom")) :=
  ⟨(job_terminal_totality [jw] [pgw] jw 7 ("boom")).1
      ((runClaimedJob [jw] [pgw] jw (Except.ok 7)).1.getD 0 jw)
      (by decide) (by decide),
   (job_terminal_totality [jw] [pgw] jw 7 ("boom")).2.2.1
      ((runClaimedJob [jw] [pgw] jw (Except.error ("boom"))).1.getD 0 jw)
      (by decide) (by decide),
   (job_terminal_totality [jw] [pgw] jw 7 ("boom")).2.2.2.1 11 (by decide)
      ((runClaimedJob [jw] [pgw] jw (Except.error ("boom"))).2.getD 0 pgw)
      (by decide) (by decide)⟩

/-! ## C9 and C10: the update-object discipline on proof_pages -/

/-- C9: the final write to the target page follows the null-stripping
discipline. Every process-URL key whose gathered value is null is removed
from the done update object before the write, and applying the stripped
update leaves that column of the page untouched; moreover no key of the
stripped object still carries an explicit null. -/
theorem null_update_keys_removed :
    ∀ (c m y k : Option String) (spots : List SpotEntry) (page : PageRow),
    (c = none → (stripNulls (mkDoneUpdate c m y k spots)).cUrl = none ∧
      (applyUpdate (stripNulls (mkDoneUpdate c m y k spots)) page).cUrl =
        page.cUrl) ∧
    (m = none → (stripNulls (mkDoneUpdate c m y k spots)).mUrl = none ∧
      (applyUpdate (stripNulls (mkDoneUpdate c m y k spots)) page).mUrl =
        page.mUrl) ∧
    (y = none → (stripNulls (mkDoneUpdate c m y k spots)).yUrl = none ∧
      (applyUpdate (stripNulls (mkDoneUpdate c m y k spots)) page).yUrl =
        page.yUrl) ∧
    (k = none → (stripNulls (mkDoneUpdate c m y k spots)).kUrl = none ∧
      (applyUpdate (stripNulls (mkDoneUpdate c m y k spots)) page).kUrl =
        page.kUrl) ∧
    ((stripNulls (mkDoneUpdate c m y k spots)).cUrl ≠ some none ∧
      (stripNulls (mkDoneUpdate c m y k spots)).mUrl ≠ some none ∧
      (stripNulls (mkDoneUpdate c m y k spots)).yUrl ≠ some none ∧
      (stripNulls (mkDoneUpdate c m y k spots)).kUrl ≠ some none ∧
      (stripNulls (mkDoneUpdate c m y k spots)).sepStatus ≠ some none ∧
      (stripNulls (mkDoneUpdate c m y k spots)).sepError ≠ some none) := by
  intro c m y k spots page
  refine ⟨?_, ?_, ?_, ?_, ?_, ?_, ?_, ?_, ?_, ?_⟩
  · intro h; subst h; simp [stripNulls, mkDoneUpdate, applyUpdate]
  · intro h; subst h; simp [stripNulls, mkDoneUpdate, applyUpdate]
  · intro h; subst h; simp [stripNulls, mkDoneUpdate, applyUpdate]
  · intro h; subst h; simp [stripNulls, mkDoneUpdate, applyUpdate]
  · cases c <;> simp [stripNulls, mkDoneUpdate]
  · cases m <;> simp [stripNulls, mkDoneUpdate]
  · cases y <;> simp [stripNulls, mkDoneUpdate]
  · cases k <;> simp [stripNulls, mkDoneUpdate]
  · simp [stripNulls, mkDoneUpdate]
  · simp [stripNulls, mkDoneUpdate]

theorem null_update_keys_removed_witness :
    (stripNulls (mkDoneUpdate none (some ("m.png")) none none [])).cUrl =
        none ∧
    (applyUpdate (stripNulls (mkDoneUpdate none (some ("m.png")) none none
        [])) pgw).cUrl = pgw.cUrl ∧
    (stripNulls (mkDoneUpdate none (some ("m.png")) none none [])).kUrl =
        none ∧
    (applyUpdate (stripNulls (mkDoneUpdate none (some ("m.png")) none none
        [])) pgw).kUrl = pgw.kUrl :=
  ⟨((null_update_keys_removed none (some ("m.png")) none none [] pgw).1
      rfl).1,
   ((null_update_keys_removed none (some ("m.png")) none none [] pgw).1
      rfl).2,
   ((null_update_keys_removed none (some ("m.png")) none none []
      pgw).2.2.2.1 rfl).1,
   ((null_update_keys_removed none (some ("m.png")) none none []
      pgw).2.2.2.1 rfl).2⟩

/-- A page row carrying the error of a previous failed run, used by the C10
counterexample. -/
def pgOld : PageRow :=
  { id := 1, cUrl := none, mUrl := none, yUrl := none, kUrl := none
    spotPlates := [], sepStatus := some ("failed")
    sepError := some ("previous boom") }

/-- C10 counterexample: after a successful reprocessing of the page, the
previously recorded error message does NOT persist. The run clears it: the
page row ends with a null `separations_error`, different from the error it
carried before the run. -/
theorem stale_error_cleared_counterexample :
    ((processJobPagesEffect [pgOld] 1 (some ("u1")) (some ("u2"))
        (some ("u3")) (some ("u4")) []).getD 0 pgOld).sepError = none ∧
    pgOld.sepError = some ("previous boom") ∧
    ((processJobPagesEffect [pgOld] 1 (some ("u1")) (some ("u2"))
        (some ("u3")) (some ("u4")) []).getD 0 pgOld).sepError ≠
      pgOld.sepError := by
  refine ⟨by decide, by decide, by decide⟩

/-- C10 amended: the success-path done update itself never writes
`separations_error` (its explicit null is stripped before the write), but an
error recorded by a previous failed run does not persist across a successful
reprocessing: the worker clears it when the run starts, because the
transition to status "processing" writes `separations_error = null` through
`setProofPageStatus`, which performs no null-stripping. Hence the page row
for the target id always ends a successful run with a null error. -/
theorem success_run_clears_error :
    ∀ (pages : List PageRow) (pid : ℕ) (c m y k : Option String)
      (spots : List SpotEntry),
    ((stripNulls (mkDoneUpdate c m y k spots)).sepError = none) ∧
    ((statusUpdateObj ("processing") none).sepError = some none) ∧
    (∀ p ∈ processJobPagesEffect pages pid c m y k spots, p.id = pid →
      p.sepError = none) := by
  intro pages pid c m y k spots
  refine ⟨by simp [stripNulls, mkDoneUpdate], rfl, ?_⟩
  intro p hp hid
  unfold processJobPagesEffect updatePagesWhere setProofPageStatus
    updatePagesWhere at hp
  simp only [List.mem_map] at hp
  obtain ⟨q, ⟨k0, _, rfl⟩, rfl⟩ := hp
  by_cases h : k0.id == pid
  · simp [h, applyUpdate, statusUpdateObj, stripNulls, mkDoneUpdate]
  · rw [if_neg h] at hid ⊢
    rw [if_neg h] at hid ⊢
    exact absurd (by simp [hid]) h

theorem success_run_clears_error_witness :
    ((processJobPagesEffect [pgOld] 1 (some ("u1")) none none none
        []).getD 0 pgOld).sepError = none :=
  (success_run_clears_error [pgOld] 1 (some ("u1")) none none none []).2.2
    ((processJobPagesEffect [pgOld] 1 (some ("u1")) none none none
        []).getD 0 pgOld)
    (by decide) (by decide)

/-! ## C8: deterministic storage paths and upsert overwriting -/

lemma upsertStore_length_indep (σ : Store) (p : List Char) (c1 c2 : List ℕ) :
    (upsertStore σ p c1).length = (upsertStore σ p c2).length := by
  induction σ with
  | nil => rfl
  | cons qd rest ih =>
    obtain ⟨q, d⟩ := qd
    by_cases h : q = p
    · simp [upsertStore, h]
    · simp [upsertStore, h, ih]

lemma upsertStore_overwrite (σ : Store) (p : List Char) (c1 c2 : List ℕ) :
    upsertStore (upsertStore σ p c1) p c2 = upsertStore σ p c2 := by
  induction σ with
  | nil => simp [upsertStore]
  | cons qd rest ih =>
    obtain ⟨q, d⟩ := qd
    by_cases h : q = p
    · simp [upsertStore, h]
    · simp [upsertStore, h, ih]

/-- C8: plate artifact storage paths are a pure function of the target page
id and the sanitized plate label — two uploads whose labels sanitize alike
land on identical paths — and uploading again through the upsert overwrites
the existing entry in place instead of accumulating a second one: the second
upload replaces the first and leaves the store size unchanged. -/
theorem storage_paths_deterministic :
    (∀ (pid l1 l2 : List Char), safeName l1 = safeName l2 →
      grayPlatePath pid l1 = grayPlatePath pid l2 ∧
      tintedPlatePath pid l1 = tintedPlatePath pid l2) ∧
    (∀ (σ : Store) (p : List Char) (c1 c2 : List ℕ),
      upsertStore (upsertStore σ p c1) p c2 = upsertStore σ p c2) ∧
    (∀ (σ : Store) (p : List Char) (c1 c2 : List ℕ),
      (upsertStore (upsertStore σ p c1) p c2).length =
        (upsertStore σ p c1).length) := by
  refine ⟨?_, fun σ p c1 c2 => upsertStore_overwrite σ p c1 c2, ?_⟩
  · intro pid l1 l2 h
    unfold grayPlatePath tintedPlatePath
    rw [h]
    exact ⟨rfl, rfl⟩
  · intro σ p c1 c2
    rw [upsertStore_overwrite σ p c1 c2]
    exact upsertStore_length_indep σ p c2 c1

theorem storage_paths_deterministic_witness :
    (grayPlatePath ("pg7".toList) ("PANTONE 300!".toList) =
      grayPlatePath ("pg7".toList) ("PANTONE_300".toList)) ∧
    upsertStore (upsertStore [] ("a/b.png".toList) [1]) ("a/b.png".toList)
        [2] = upsertStore [] ("a/b.png".toList) [2] ∧
    (upsertStore (upsertStore [] ("a/b.png".toList) [1]) ("a/b.png".toList)
        [2]).length =
      (upsertStore [] ("a/b.png".toList) [1]).length :=
  ⟨(storage_paths_deterministic.1 ("pg7".toList) ("PANTONE 300!".toList)
      ("PANTONE_300".toList) (by decide)).1,
   storage_paths_deterministic.2.1 [] ("a/b.png".toList) [1] [2],
   storage_paths_deterministic.2.2 [] ("a/b.png".toList) [1] [2]⟩

/-! ## C6: deterministic spot colors -/

lemma spotColorFromName_band (name : List ℕ) :
    (120 ≤ (spotColorFromName name).r ∧ (spotColorFromName name).r ≤ 239) ∧
    (120 ≤ (spotColorFromName name).g ∧ (spotColorFromName name).g ≤ 239) ∧
    (120 ≤ (spotColorFromName name).b ∧ (spotColorFromName name).b ≤ 239) := by
  unfold spotColorFromName
  have h0 : (md5Digest name).getD 0 0 % 120 < 120 := Nat.mod_lt _ (by norm_num)
  have h1 : (md5Digest name).getD 1 0 % 120 < 120 := Nat.mod_lt _ (by norm_num)
  have h2 : (md5Digest name).getD 2 0 % 120 < 120 := Nat.mod_lt _ (by norm_num)
  refine ⟨⟨?_, ?_⟩, ⟨?_, ?_⟩, ⟨?_, ?_⟩⟩ <;> simp <;> omega

/-- C6: spot color derivation is deterministic. The derived triple is a pure
function of the label bytes (the MD5 digest is recomputed identically on
every invocation), so equal labels always yield the identical RGB triple;
moreover every derived channel lies in the mid-range band [120, 239]. -/
theorem spot_color_deterministic :
    (∀ name1 name2 : List ℕ, name1 = name2 →
      spotColorFromName name1 = spotColorFromName name2) ∧
    (∀ name : List ℕ,
      120 ≤ (spotColorFromName name).r ∧ (spotColorFromName name).r ≤ 239 ∧
      120 ≤ (spotColorFromName name).g ∧ (spotColorFromName name).g ≤ 239 ∧
      120 ≤ (spotColorFromName name).b ∧ (spotColorFromName name).b ≤ 239) := by
  refine ⟨fun name1 name2 h => h ▸ rfl, ?_⟩
  intro name
  have h := spotColorFromName_band name
  exact ⟨h.1.1, h.1.2, h.2.1.1, h.2.1.2, h.2.2.1, h.2.2.2⟩

theorem spot_color_deterministic_witness :
    spotColorFromName [80, 97, 110, 116, 111, 110, 101] =
      spotColorFromName [80, 97, 110, 116, 111, 110, 101] ∧
    120 ≤ (spotColorFromName [80, 97, 110, 116, 111, 110, 101]).r :=
  ⟨spot_color_deterministic.1 [80, 97, 110, 116, 111, 110, 101]
      [80, 97, 110, 116, 111, 110, 101] rfl,
   (spot_color_deterministic.2 [80, 97, 110, 116, 111, 110, 101]).1⟩

/-! ## C4: the lightness policy on process plates -/

/-- C4: for every grayscale byte sample, colorizing under the lightness
policy maps a Cyan plate pixel to (gray, 255, 255), Magenta to
(255, gray, 255), Yellow to (255, 255, gray) and Black to
(gray, gray, gray), each fully opaque (alpha 255). -/
theorem lightness_policy_exact :
    ∀ (gray : ℕ) (spot : RGB), gray ≤ 255 →
      colorizePixel ("C") spot gray = ⟨gray, 255, 255, 255⟩ ∧
      colorizePixel ("M") spot gray = ⟨255, gray, 255, 255⟩ ∧
      colorizePixel ("Y") spot gray = ⟨255, 255, gray, 255⟩ ∧
      colorizePixel ("K") spot gray = ⟨gray, gray, gray, 255⟩ := by
  intro gray spot h
  have hm : gray % 256 = gray := Nat.mod_eq_of_lt (by omega)
  refine ⟨?_, ?_, ?_, ?_⟩ <;> simp [colorizePixel, mkPx, hm]

theorem lightness_policy_exact_witness :
    colorizePixel ("C") ⟨130, 140, 150⟩ 7 = ⟨7, 255, 255, 255⟩ ∧
    colorizePixel ("M") ⟨130, 140, 150⟩ 7 = ⟨255, 7, 255, 255⟩ ∧
    colorizePixel ("Y") ⟨130, 140, 150⟩ 7 = ⟨255, 255, 7, 255⟩ ∧
    colorizePixel ("K") ⟨130, 140, 150⟩ 7 = ⟨7, 7, 7, 255⟩ :=
  lightness_policy_exact 7 ⟨130, 140, 150⟩ (by decide)

/-! ## C3: composite identity laws (spec-modelled compositor) -/

lemma mul255_div255 (x : ℕ) : 255 * x / 255 = x :=
  Nat.mul_div_cancel_left x (by norm_num)

lemma blendPixel_white (r g b : ℕ) :
    blendPixel ⟨255, 255, 255, 255⟩ ⟨r, g, b, 255⟩ =
      (⟨r, g, b, 255⟩ : RGBA) := by
  unfold blendPixel
  simp only [mul255_div255]

/-- C3: compositing an empty plate list yields none; compositing a single
fully opaque constant plate of color (r, g, b) over the white canvas yields
exactly that plate, pixel for pixel. -/
theorem composite_identity_laws :
    composite ([] : List (List RGBA)) = none ∧
    (∀ (n r g b : ℕ),
      composite [List.replicate n (⟨r, g, b, 255⟩ : RGBA)] =
        some (List.replicate n (⟨r, g, b, 255⟩ : RGBA))) := by
  refine ⟨rfl, ?_⟩
  intro n r g b
  unfold composite whiteCanvas
  simp only [List.foldl_cons, List.foldl_nil, List.length_replicate]
  rw [List.zipWith_replicate', blendPixel_white]

/-! ## C5: monotone ink mapping -/

lemma spotChanVal_mono (sc : ℕ) (hsc : sc ≤ 255) {g1 g2 : ℕ} (h : g1 ≤ g2) :
    spotChanVal sc g1 ≤ spotChanVal sc g2 := by
  have key : spotChanVal sc g2 - spotChanVal sc g1 =
      (255 - (sc : ℚ)) * (((g2 : ℚ) - (g1 : ℚ)) / 255) := by
    unfold spotChanVal spotStrength
    ring
  have hA : (0 : ℚ) ≤ 255 - (sc : ℚ) := by
    have : (sc : ℚ) ≤ 255 := by exact_mod_cast hsc
    linarith
  have hg : (g1 : ℚ) ≤ (g2 : ℚ) := by exact_mod_cast h
  have hpos : (0 : ℚ) ≤ (255 - (sc : ℚ)) * (((g2 : ℚ) - (g1 : ℚ)) / 255) :=
    mul_nonneg hA (div_nonneg (by linarith) (by norm_num))
  linarith [key ▸ hpos]

lemma spotChanVal_bounds (sc g : ℕ) (hsc : sc ≤ 255) (hg : g ≤ 255) :
    0 ≤ spotChanVal sc g ∧ spotChanVal sc g ≤ 255 := by
  unfold spotChanVal spotStrength
  have hscQ : (sc : ℚ) ≤ 255 := by exact_mod_cast hsc
  have hsc0 : (0 : ℚ) ≤ (sc : ℚ) := Nat.cast_nonneg sc
  have hgQ : (g : ℚ) / 255 ≤ 1 := by
    rw [div_le_one (by norm_num)]
    exact_mod_cast hg
  have hg0 : (0 : ℚ) ≤ (g : ℚ) / 255 :=
    div_nonneg (Nat.cast_nonneg g) (by norm_num)
  constructor
  · have h1 : (255 - (sc : ℚ)) * (1 - (g : ℚ) / 255) ≤ 255 * 1 :=
      mul_le_mul (by linarith) (by linarith) (by linarith) (by norm_num)
    linarith
  · have h2 : (0 : ℚ) ≤ (255 - (sc : ℚ)) * (1 - (g : ℚ) / 255) :=
      mul_nonneg (by linarith) (by linarith)
    linarith

lemma jsRound_mono {x y : ℚ} (h : x ≤ y) : jsRound x ≤ jsRound y :=
  Int.floor_le_floor (by linarith)

lemma jsRound_le_255 {x : ℚ} (h : x ≤ 255) : jsRound x ≤ 255 := by
  unfold jsRound
  have : ⌊x + 1 / 2⌋ < 256 := by
    rw [Int.floor_lt]
    push_cast
    linarith
  omega

lemma spotChan_le_255 (sc g : ℕ) (hsc : sc ≤ 255) (hg : g ≤ 255) :
    spotChan sc g ≤ 255 := by
  unfold spotChan
  have hb := (spotChanVal_bounds sc g hsc hg).2
  exact Int.toNat_le.mpr (by exact_mod_cast jsRound_le_255 hb)

lemma spotChan_mono (sc : ℕ) (hsc : sc ≤ 255) {g1 g2 : ℕ} (h : g1 ≤ g2) :
    spotChan sc g1 ≤ spotChan sc g2 :=
  Int.toNat_le_toNat (jsRound_mono (spotChanVal_mono sc hsc h))

/-- Componentwise comparison of two RGBA pixels: the left one is at least as
light on every color channel and equally opaque. -/
def pixelLE (p q : RGBA) : Prop :=
  p.r ≤ q.r ∧ p.g ≤ q.g ∧ p.b ≤ q.b ∧ p.a = q.a

lemma spotChan_mod_mono (sc : ℕ) (hsc : sc ≤ 255) {g1 g2 : ℕ} (h : g1 ≤ g2)
    (hg2 : g2 ≤ 255) : spotChan sc g1 % 256 ≤ spotChan sc g2 % 256 := by
  have h1 : spotChan sc g1 ≤ 255 := spotChan_le_255 sc g1 hsc (le_trans h hg2)
  have h2 : spotChan sc g2 ≤ 255 := spotChan_le_255 sc g2 hsc hg2
  have m1 : spotChan sc g1 % 256 = spotChan sc g1 := Nat.mod_eq_of_lt (by omega)
  have m2 : spotChan sc g2 % 256 = spotChan sc g2 := Nat.mod_eq_of_lt (by omega)
  rw [m1, m2]
  exact spotChan_mono sc hsc h


/-- C5: heavier ink never renders lighter. Under the fixed polarity of the
code (a larger grayscale sample means less ink), every RGB channel of the
colorized pixel is monotonically non-decreasing in the grayscale sample and
the alpha is constant, for each of the four process keys and for the spot
branch with its rounded tint derived from any label. -/
theorem ink_mapping_monotone :
    ∀ (key : String) (name : List ℕ) (g1 g2 : ℕ), g1 ≤ g2 → g2 ≤ 255 →
      (key = "C" ∨ key = "M" ∨ key = "Y" ∨ key = "K" ∨ key = "SPOT") →
      pixelLE (colorizePixel key (spotColorFromName name) g1)
        (colorizePixel key (spotColorFromName name) g2) := by
  intro key name g1 g2 h hg2 hkey
  have hg1 : g1 ≤ 255 := le_trans h hg2
  have hmm : g1 % 256 ≤ g2 % 256 := by
    rw [Nat.mod_eq_of_lt (by omega), Nat.mod_eq_of_lt (by omega)]
    exact h
  have hband := spotColorFromName_band name
  have hr : (spotColorFromName name).r ≤ 255 :=
    le_trans hband.1.2 (by norm_num)
  have hgc : (spotColorFromName name).g ≤ 255 :=
    le_trans hband.2.1.2 (by norm_num)
  have hb : (spotColorFromName name).b ≤ 255 :=
    le_trans hband.2.2.2 (by norm_num)
  rcases hkey with rfl | rfl | rfl | rfl | rfl
  · simp [colorizePixel, mkPx, pixelLE, hmm]
  · simp [colorizePixel, mkPx, pixelLE, hmm]
  · simp [colorizePixel, mkPx, pixelLE, hmm]
  · simp [colorizePixel, mkPx, pixelLE, hmm]
  · simp only [colorizePixel, mkPx, pixelLE]
    refine ⟨?_, ?_, ?_, rfl⟩
    · exact spotChan_mod_mono _ hr h hg2
    · exact spotChan_mod_mono _ hgc h hg2
    · exact spotChan_mod_mono _ hb h hg2

theorem ink_mapping_monotone_witness :
    pixelLE (colorizePixel ("SPOT") (spotColorFromName [1, 2, 3]) 10)
      (colorizePixel ("SPOT") (spotColorFromName [1, 2, 3]) 200) ∧
    pixelLE (colorizePixel ("C") (spotColorFromName [1, 2, 3]) 10)
      (colorizePixel ("C") (spotColorFromName [1, 2, 3]) 200) :=
  ⟨ink_mapping_monotone ("SPOT") [1, 2, 3] 10 200 (by norm_num) (by norm_num)
      (by simp),
   ink_mapping_monotone ("C") [1, 2, 3] 10 200 (by norm_num) (by norm_num)
      (by simp)⟩

/-! ## C7: classification lemmas -/

lemma isPrefixB_iff (p : List Char) :
    ∀ s : List Char, isPrefixB p s = true ↔ p <+: s := by
  induction p with
  | nil =>
    intro s
    simp [isPrefixB]
  | cons a as ih =>
    intro s
    cases s with
    | nil => simp [isPrefixB]
    | cons b bs => simp [isPrefixB, ih bs, List.cons_prefix_cons]

lemma containsSub_iff (p s : List Char) : containsSub p s = true ↔ p <:+: s := by
  induction s with
  | nil => simp [containsSub, isPrefixB_iff]
  | cons c rest ih =>
    simp [containsSub, isPrefixB_iff, ih, List.infix_cons_iff]

lemma collapseRuns_word (c : Char) (rest : List Char) (b : Bool)
    (hc : wordDotDash c) :
    collapseRuns (c :: rest) b = c :: collapseRuns rest false := by
  cases b <;> simp [collapseRuns, hc]

lemma collapseRuns_bad_true (c : Char) (rest : List Char)
    (hc : ¬ wordDotDash c) :
    collapseRuns (c :: rest) true = collapseRuns rest true := by
  simp [collapseRuns, hc]

lemma collapseRuns_bad_false (c : Char) (rest : List Char)
    (hc : ¬ wordDotDash c) :
    collapseRuns (c :: rest) false = '_' :: collapseRuns rest true := by
  simp [collapseRuns, hc]

/-- A word without underscores reaching into the collapsed string as a
leading segment already leads the original string (after lowercasing):
collapsing never fabricates new leading word characters. -/
lemma collapse_leads_lower :
    ∀ (s w : List Char), '_' ∉ w →
      w <+: (collapseRuns s false).map Char.toLower →
      w <+: s.map Char.toLower := by
  intro s
  induction s with
  | nil =>
    intro w _ hw
    exact hw
  | cons c rest ih =>
    intro w hwmem hw
    by_cases hc : wordDotDash c
    · rw [collapseRuns_word c rest false hc, List.map_cons] at hw
      cases w with
      | nil => exact List.nil_prefix
      | cons a as =>
        rw [List.cons_prefix_cons] at hw
        rw [List.map_cons, List.cons_prefix_cons]
        exact ⟨hw.1,
          ih as (fun hm => hwmem (List.mem_cons_of_mem a hm)) hw.2⟩
    · rw [collapseRuns_bad_false c rest hc, List.map_cons] at hw
      cases w with
      | nil => exact List.nil_prefix
      | cons a as =>
        rw [List.cons_prefix_cons] at hw
        exfalso
        have ha : a = '_' := by rw [hw.1]; decide
        have : ('_' : Char) ∈ a :: as := by
          rw [ha]
          exact List.mem_cons_self _ _
        exact hwmem this

/-- A word without underscores occurring inside the collapsed string already
occurs inside the original string (after lowercasing): `safeName` can
replace and delete characters but never creates a new occurrence of a word
like "cyan". -/
lemma collapse_sub_lower :
    ∀ (s : List Char) (b : Bool) (w : List Char), '_' ∉ w →
      w <:+: (collapseRuns s b).map Char.toLower →
      w <:+: s.map Char.toLower := by
  intro s
  induction s with
  | nil =>
    intro b w _ hw
    exact hw
  | cons c rest ih =>
    intro b w hwmem hw
    by_cases hc : wordDotDash c
    · rw [collapseRuns_word c rest b hc, List.map_cons,
        List.infix_cons_iff] at hw
      rw [List.map_cons, List.infix_cons_iff]
      rcases hw with hpre | hinf
      · cases w with
        | nil => exact Or.inr List.nil_infix
        | cons a as =>
          rw [List.cons_prefix_cons] at hpre
          refine Or.inl ?_
          rw [List.cons_prefix_cons]
          exact ⟨hpre.1, collapse_leads_lower rest as
            (fun hm => hwmem (List.mem_cons_of_mem a hm)) hpre.2⟩
      · exact Or.inr (ih false w hwmem hinf)
    · cases b with
      | true =>
        rw [collapseRuns_bad_true c rest hc] at hw
        rw [List.map_cons, List.infix_cons_iff]
        exact Or.inr (ih true w hwmem hw)
      | false =>
        rw [collapseRuns_bad_false c rest hc, List.map_cons,
          List.infix_cons_iff] at hw
        rw [List.map_cons, List.infix_cons_iff]
        rcases hw with hpre | hinf
        · cases w with
          | nil => exact Or.inr List.nil_infix
          | cons a as =>
            rw [List.cons_prefix_cons] at hpre
            exfalso
            have ha : a = '_' := by rw [hpre.1]; decide
            have : ('_' : Char) ∈ a :: as := by
              rw [ha]
              exact List.mem_cons_self _ _
            exact hwmem this
        · exact Or.inr (ih true w hwmem hinf)

lemma dropTrailing_leads (l : List Char) : dropTrailingUnderscores l <+: l := by
  unfold dropTrailingUnderscores
  simpa using ( List.dropWhile_suffix (p := (· == '_')) (l := l.reverse)).reverse

lemma safeName_sub_collapse (s : List Char) :
    safeName s <:+: collapseRuns s false := by
  unfold safeName
  have h1 := List.take_prefix 80
    (dropTrailingUnderscores ((collapseRuns s false).dropWhile (· == '_')))
  have h2 := dropTrailing_leads ((collapseRuns s false).dropWhile (· == '_'))
  have h3 := List.dropWhile_suffix (l := collapseRuns s false) (· == '_')
  exact ((h1.trans h2).isInfix).trans h3.isInfix

lemma stripExt_leads (s : List Char) : stripExtL s <+: s := by
  unfold stripExtL
  by_cases h1 : ((s.reverse.takeWhile (fun c => !(c == '.'))).length == s.length)
  · simp only [h1, if_true]
    exact List.prefix_refl s
  · simp only [h1, if_false, Bool.false_eq_true]
    by_cases h2 :
        ((s.reverse.takeWhile (fun c => !(c == '.'))).length + 1 == s.length)
    · simp only [h2, if_true]
      exact List.prefix_refl s
    · simp only [h2, if_false, Bool.false_eq_true]
      exact List.take_prefix _ s

/-- Sanitizing the stem of a file name cannot create an occurrence of an
underscore-free word (such as a process-ink name) that the lowercased name
did not already contain. -/
lemma notsub_safeName (w : List Char) (hw : '_' ∉ w) (x : List Char)
    (h : ¬ w <:+: toLowerList x) :
    ¬ w <:+: toLowerList (safeName (stripExtL x)) := by
  intro hmem
  apply h
  have h2 : toLowerList (safeName (stripExtL x)) <:+:
      (collapseRuns (stripExtL x) false).map Char.toLower :=
    (safeName_sub_collapse (stripExtL x)).map Char.toLower
  have h3 : w <:+: (collapseRuns (stripExtL x) false).map Char.toLower :=
    hmem.trans h2
  have h4 : w <:+: (stripExtL x).map Char.toLower :=
    collapse_sub_lower (stripExtL x) false w hw h3
  have h5 : (stripExtL x).map Char.toLower <:+: x.map Char.toLower :=
    ((stripExt_leads x).map Char.toLower).isInfix
  exact h4.trans h5

/-- C7 counterexample: the file name "c.tif" contains none of the four
process-ink words, yet the worker classifies it as the Cyan process plate
(key "C"), not as a spot plate, because `plateKeyFromLabel` also accepts the
bare single letter. -/
theorem classify_counterexample :
    containsSub cyanWord (toLowerList (basenameL ("c.tif".toList))) = false ∧
    containsSub magentaWord (toLowerList (basenameL ("c.tif".toList))) =
      false ∧
    containsSub yellowWord (toLowerList (basenameL ("c.tif".toList))) =
      false ∧
    containsSub blackWord (toLowerList (basenameL ("c.tif".toList))) =
      false ∧
    plateKeyFromLabel (guessPlateLabelFromFilename ("c.tif".toList)) = "C" ∧
    plateKeyFromLabel (guessPlateLabelFromFilename ("c.tif".toList)) ≠
      "SPOT" := by
  refine ⟨rfl, rfl, rfl, rfl, rfl, by decide⟩

/-- C7 amended: a raster file whose lowercased base name contains "cyan",
"magenta", "yellow" or "black" is assigned the corresponding process
identity, the first match winning in that order; every other file gets the
sanitized stem of its file name as label and becomes a spot plate, except
when that label is, case-insensitively, exactly the single letter c, m, y or
k, in which case it is assigned the corresponding process identity. -/
theorem classify_amended :
    ∀ p : List Char,
    (containsSub cyanWord (toLowerList (basenameL p)) = true →
      guessPlateLabelFromFilename p = "Cyan".toList ∧
      plateKeyFromLabel (guessPlateLabelFromFilename p) = "C") ∧
    (containsSub cyanWord (toLowerList (basenameL p)) = false →
      containsSub magentaWord (toLowerList (basenameL p)) = true →
      guessPlateLabelFromFilename p = "Magenta".toList ∧
      plateKeyFromLabel (guessPlateLabelFromFilename p) = "M") ∧
    (containsSub cyanWord (toLowerList (basenameL p)) = false →
      containsSub magentaWord (toLowerList (basenameL p)) = false →
      containsSub yellowWord (toLowerList (basenameL p)) = true →
      guessPlateLabelFromFilename p = "Yellow".toList ∧
      plateKeyFromLabel (guessPlateLabelFromFilename p) = "Y") ∧
    (containsSub cyanWord (toLowerList (basenameL p)) = false →
      containsSub magentaWord (toLowerList (basenameL p)) = false →
      containsSub yellowWord (toLowerList (basenameL p)) = false →
      containsSub blackWord (toLowerList (basenameL p)) = true →
      guessPlateLabelFromFilename p = "Black".toList ∧
      plateKeyFromLabel (guessPlateLabelFromFilename p) = "K") ∧
    (containsSub cyanWord (toLowerList (basenameL p)) = false →
      containsSub magentaWord (toLowerList (basenameL p)) = false →
      containsSub yellowWord (toLowerList (basenameL p)) = false →
      containsSub blackWord (toLowerList (basenameL p)) = false →
      guessPlateLabelFromFilename p = safeName (stripExtL (basenameL p)) ∧
      (toLowerList (guessPlateLabelFromFilename p) = "c".toList →
        plateKeyFromLabel (guessPlateLabelFromFilename p) = "C") ∧
      (toLowerList (guessPlateLabelFromFilename p) = "m".toList →
        plateKeyFromLabel (guessPlateLabelFromFilename p) = "M") ∧
      (toLowerList (guessPlateLabelFromFilename p) = "y".toList →
        plateKeyFromLabel (guessPlateLabelFromFilename p) = "Y") ∧
      (toLowerList (guessPlateLabelFromFilename p) = "k".toList →
        plateKeyFromLabel (guessPlateLabelFromFilename p) = "K") ∧
      (toLowerList (guessPlateLabelFromFilename p) ≠ "c".toList →
        toLowerList (guessPlateLabelFromFilename p) ≠ "m".toList →
        toLowerList (guessPlateLabelFromFilename p) ≠ "y".toList →
        toLowerList (guessPlateLabelFromFilename p) ≠ "k".toList →
        plateKeyFromLabel (guessPlateLabelFromFilename p) = "SPOT")) := by
  intro p
  refine ⟨?_, ?_, ?_, ?_, ?_⟩
  · intro h1
    have hl : guessPlateLabelFromFilename p = "Cyan".toList := by
      simp [guessPlateLabelFromFilename, h1]
    exact ⟨hl, by rw [hl]; rfl⟩
  · intro h1 h2
    have hl : guessPlateLabelFromFilename p = "Magenta".toList := by
      simp [guessPlateLabelFromFilename, h1, h2]
    exact ⟨hl, by rw [hl]; rfl⟩
  · intro h1 h2 h3
    have hl : guessPlateLabelFromFilename p = "Yellow".toList := by
      simp [guessPlateLabelFromFilename, h1, h2, h3]
    exact ⟨hl, by rw [hl]; rfl⟩
  · intro h1 h2 h3 h4
    have hl : guessPlateLabelFromFilename p = "Black".toList := by
      simp [guessPlateLabelFromFilename, h1, h2, h3, h4]
    exact ⟨hl, by rw [hl]; rfl⟩
  · intro h1 h2 h3 h4
    have hl : guessPlateLabelFromFilename p =
        safeName (stripExtL (basenameL p)) := by
      simp [guessPlateLabelFromFilename, h1, h2, h3, h4]
    have hnc : containsSub cyanWord
        (toLowerList (guessPlateLabelFromFilename p)) = false := by
      rw [hl, Bool.eq_false_iff]
      intro htrue
      exact notsub_safeName cyanWord (by decide) (basenameL p)
        (fun hin => by simp [(containsSub_iff _ _).mpr hin] at h1)
        ((containsSub_iff _ _).mp htrue)
    have hnm : containsSub magentaWord
        (toLowerList (guessPlateLabelFromFilename p)) = false := by
      rw [hl, Bool.eq_false_iff]
      intro htrue
      exact notsub_safeName magentaWord (by decide) (basenameL p)
        (fun hin => by simp [(containsSub_iff _ _).mpr hin] at h2)
        ((containsSub_iff _ _).mp htrue)
    have hny : containsSub yellowWord
        (toLowerList (guessPlateLabelFromFilename p)) = false := by
      rw [hl, Bool.eq_false_iff]
      intro htrue
      exact notsub_safeName yellowWord (by decide) (basenameL p)
        (fun hin => by simp [(containsSub_iff _ _).mpr hin] at h3)
        ((containsSub_iff _ _).mp htrue)
    have hnk : containsSub blackWord
        (toLowerList (guessPlateLabelFromFilename p)) = false := by
      rw [hl, Bool.eq_false_iff]
      intro htrue
      exact notsub_safeName blackWord (by decide) (basenameL p)
        (fun hin => by simp [(containsSub_iff _ _).mpr hin] at h4)
        ((containsSub_iff _ _).mp htrue)
    refine ⟨hl, ?_, ?_, ?_, ?_, ?_⟩
    · intro he
      simp [plateKeyFromLabel, he]
    · intro he
      (simp [plateKeyFromLabel, he, hnc]; decide)
    · intro he
      (simp [plateKeyFromLabel, he, hnc, hnm]; decide)
    · intro he
      (simp [plateKeyFromLabel, he, hnc, hnm, hny]; decide)
    · intro he1 he2 he3 he4
      have he1' : toLowerList (guessPlateLabelFromFilename p) ≠ ['c'] := he1
      have he2' : toLowerList (guessPlateLabelFromFilename p) ≠ ['m'] := he2
      have he3' : toLowerList (guessPlateLabelFromFilename p) ≠ ['y'] := he3
      have he4' : toLowerList (guessPlateLabelFromFilename p) ≠ ['k'] := he4
      simp [plateKeyFromLabel, hnc, hnm, hny, hnk, he1', he2', he3', he4']

theorem classify_amended_witness :
    plateKeyFromLabel (guessPlateLabelFromFilename
      ("out/sep_001.tif".toList)) = "SPOT" ∧
    guessPlateLabelFromFilename ("out/sep_001.tif".toList) =
      safeName (stripExtL (basenameL ("out/sep_001.tif".toList))) ∧
    guessPlateLabelFromFilename ("out/Cyan.tif".toList) = "Cyan".toList ∧
    plateKeyFromLabel (guessPlateLabelFromFilename
      ("out/Cyan.tif".toList)) = "C" ∧
    plateKeyFromLabel (guessPlateLabelFromFilename ("out/K.tif".toList)) =
      "K" :=
  ⟨((classify_amended ("out/sep_001.tif".toList)).2.2.2.2 rfl rfl rfl
      rfl).2.2.2.2.2 (by decide) (by decide) (by decide) (by decide),
   ((classify_amended ("out/sep_001.tif".toList)).2.2.2.2 rfl rfl rfl
      rfl).1,
   ((classify_amended ("out/Cyan.tif".toList)).1 rfl).1,
   ((classify_amended ("out/Cyan.tif".toList)).1 rfl).2,
   ((classify_amended ("out/K.tif".toList)).2.2.2.2 rfl rfl rfl
      rfl).2.2.2.2.1 rfl⟩
